import Mathlib

/-!
Verification of the file-indexing / random-access cache subsystem of
`gwip` (`gwip/formats/index.py`).

The embedding models file contents as lists of characters; the data this
subsystem handles is ASCII, so one character stands for one byte and list
positions model the byte offsets reported by `f.tell()`.  zlib is an
external library and is modelled by its contract: a `Codec` is any pair of
a compression function and a decompression function such that decompressing
a compressed payload gives the payload back (`zlibInverts`).  pandas
`to_csv` / `read_csv` on the sidecar are modelled by a minimal-quoting CSV
writer and a character-level CSV parsing state machine, and the `c`-engine
parse of the delimited source file by line/field splitting.
-/

namespace Gwip

/-- The error channel: models `ProgramError` (with its message) plus the
library exceptions (`AssertionError`, pandas `EmptyDataError`,
length-mismatch / parse `ValueError`s, `zlib.error`) that propagate out of
the subsystem. -/
inductive GwipError where
  | invalidArguments : GwipError
  | emptyData : GwipError
  | malformed : GwipError
  | programError : String → GwipError
deriving DecidableEq

/-- An in-memory index as built by `generate_index`: the user column names
(the reserved `seek` name is kept separately) and one row per source line,
each row holding the projected field values and the `seek` byte offset. -/
structure IndexTable where
  names : List (List Char)
  rows : List (List (List Char) × Nat)
deriving DecidableEq

/-- A table as it comes back from `pd.read_csv` in `read_index`: a header
naming the columns and the data rows, all textual. -/
structure RawTable where
  header : List (List Char)
  data : List (List (List Char))
deriving DecidableEq

/-- Model of the zlib compress/decompress pair used by `write_index` and
`read_index`.  `decomp` is partial because `zlib.decompress` raises on
corrupt input. -/
structure Codec where
  comp : List Char → List Char
  decomp : List Char → Option (List Char)

/-- The contract zlib satisfies: decompressing a compressed blob restores
the blob. -/
def zlibInverts (c : Codec) : Prop := ∀ b : List Char, c.decomp (c.comp b) = some b

/-- A trivial codec satisfying the zlib contract, used to evaluate the
model on concrete inputs. -/
def idCodec : Codec := ⟨fun b => b, fun b => some b⟩

/-- `_CHECK_STRING`, the 15-byte magic header of a sidecar index file. -/
def checkString : List Char := "GWIP INDEX FILE".data

/-- The reserved `seek` column name. -/
def seekName : List Char := "seek".data

/-- The 3-byte gzip/bgzip magic `b"\x1f\x8b\x08"` sniffed by
`get_open_func`. -/
def gzipMagic : List Char := [Char.ofNat 31, Char.ofNat 139, Char.ofNat 8]

/-- Models lines 106-108 of `get_open_func`: read the first 3 bytes of the
file and compare them with the gzip magic. -/
def sniffBgzip (content : List Char) : Bool := decide (content.take 3 = gzipMagic)

/-- Models `get_open_func(fn, return_fmt=True)`: sniff the encoding, fail
when BioPython is missing for a compressed file, fail when the chosen
reader is not seekable, and otherwise return the encoding tag.  The two
runtime capabilities are passed in as parameters. -/
def getOpenFunc (fn : String) (hasBiopython seekable : Bool) (content : List Char) :
    Except GwipError Bool :=
  if sniffBgzip content && !hasBiopython then
    Except.error (GwipError.programError "needs BioPython to index a bgzip file")
  else if sniffBgzip content && !seekable then
    Except.error (GwipError.programError (fn ++ ": use bgzip for compression..."))
  else Except.ok (sniffBgzip content)

/-- Position stream produced by `_seek_generator` after the initial `yield 0`:
for each line, the reader's position (`f.tell()`) once that line has been
consumed, starting from position `pos`. -/
def seekGeneratorFrom : Nat → List (List Char) → List Nat
  | _, [] => []
  | pos, l :: ls => (pos + l.length) :: seekGeneratorFrom (pos + l.length) ls

/-- Models `_seek_generator`: yield 0, then the position after each line. -/
def seekGenerator (lines : List (List Char)) : List Nat :=
  0 :: seekGeneratorFrom 0 lines

/-- Splits file content into lines the way iterating a Python file handle
does: each line keeps its trailing newline; a final unterminated chunk is
its own line. -/
def splitLinesAux : List Char → List Char → List (List Char)
  | acc, [] => if acc = [] then [] else [acc.reverse]
  | acc, c :: rest =>
    if c = '\n' then (c :: acc).reverse :: splitLinesAux [] rest
    else splitLinesAux (c :: acc) rest

/-- All lines of a file, with their newline terminators. -/
def splitLines (content : List Char) : List (List Char) := splitLinesAux [] content

/-- Drops the newline terminator of a line, if present. -/
def stripNl (l : List Char) : List Char :=
  if l.getLast? = some '\n' then l.dropLast else l

/-- Splits a line at every occurrence of the separator (n separators give
n+1 fields), as the pandas `c` engine does for a one-character `sep`. -/
def splitSepAux (sep : Char) : List Char → List Char → List (List Char)
  | acc, [] => [acc.reverse]
  | acc, c :: rest =>
    if c = sep then acc.reverse :: splitSepAux sep [] rest
    else splitSepAux sep (c :: acc) rest

/-- Fields of one source line. -/
def splitSep (sep : Char) (l : List Char) : List (List Char) := splitSepAux sep [] l

/-- `traverse` over `Option`, written out so that it computes by `rfl`. -/
def mapOption (f : α → Option β) : List α → Option (List β)
  | [] => some []
  | a :: l =>
    match f a, mapOption f l with
    | some b, some bs => some (b :: bs)
    | _, _ => none

/-- `usecols` projection of one parsed line: pick the requested column
positions; a position past the end of the line is a parse failure. -/
def projectRow (cols : List Nat) (fs : List (List Char)) : Option (List (List Char)) :=
  mapOption (fun i => fs.get? i) cols

/-- A character that forces quoting in minimal-quoting CSV output. -/
def isSpecialChar (c : Char) : Bool := c == ',' || c == '"' || c == '\n' || c == '\r'

/-- Whether `to_csv` must quote this field. -/
def needsQuote (f : List Char) : Bool := f.any isSpecialChar

/-- Doubles every quote character, the CSV escape used inside quoted
fields. -/
def escapeQuotes : List Char → List Char
  | [] => []
  | c :: t => if c = '"' then '"' :: '"' :: escapeQuotes t else c :: escapeQuotes t

/-- One CSV field as `to_csv` renders it (minimal quoting). -/
def writeField (f : List Char) : List Char :=
  if needsQuote f = true then '"' :: (escapeQuotes f ++ ['"']) else f

/-- One CSV record: fields joined by commas. -/
def writeRecord : List (List Char) → List Char
  | [] => []
  | [f] => writeField f
  | f :: fs => writeField f ++ ',' :: writeRecord fs

/-- A whole CSV document: every record followed by a newline, as
`DataFrame.to_csv` emits it. -/
def writeCSV : List (List (List Char)) → List Char
  | [] => []
  | r :: rs => writeRecord r ++ '\n' :: writeCSV rs

/-- The CSV reading state machine behind `pd.read_csv` on the sidecar:
processes one character at a time, tracking the current field (reversed),
the fields of the current record (reversed), the completed records
(reversed), whether the position is inside a quoted field, and whether a
closing quote was just consumed.  Blank lines are skipped, as
`skip_blank_lines=True` does. -/
def csvRun : List Char → List Char → List (List Char) → List (List (List Char)) →
    Bool → Bool → List (List (List Char))
  | [], fld, row, rows, _, afterQ =>
    if fld = [] ∧ row = [] ∧ afterQ = false then rows.reverse
    else rows.reverse ++ [(fld.reverse :: row).reverse]
  | c :: rest, fld, row, rows, inQ, afterQ =>
    if inQ then
      if c = '"' then csvRun rest fld row rows false true
      else csvRun rest (c :: fld) row rows true false
    else if afterQ = true ∧ c = '"' then csvRun rest ('"' :: fld) row rows true false
    else if c = ',' then csvRun rest [] (fld.reverse :: row) rows false false
    else if c = '\n' then
      if fld = [] ∧ row = [] ∧ afterQ = false then csvRun rest [] [] rows false false
      else csvRun rest [] [] ((fld.reverse :: row).reverse :: rows) false false
    else if c = '"' ∧ fld = [] then csvRun rest fld row rows true false
    else csvRun rest (c :: fld) row rows false false

/-- Parse a CSV document into its records. -/
def parseCSV (input : List Char) : List (List (List Char)) :=
  csvRun input [] [] [] false false

/-- The character for a decimal digit. -/
def natDigit (d : Nat) : Char := Char.ofNat (48 + d)

/-- Fuel-driven decimal rendering of a natural number (the fuel keeps the
recursion structural so that the definition computes by `rfl`). -/
def toDecAux : Nat → Nat → List Char
  | 0, _ => []
  | fuel + 1, n =>
    if n < 10 then [natDigit n]
    else toDecAux fuel (n / 10) ++ [natDigit (n % 10)]

/-- Decimal rendering of a natural number, as `to_csv` renders the `seek`
column. -/
def toDecimal (n : Nat) : List Char := toDecAux (n + 1) n

/-- Decimal parsing, as `read_csv` recovers the integer `seek` values. -/
def parseDec (l : List Char) : Nat :=
  l.foldl (fun a c => 10 * a + (c.toNat - 48)) 0

/-- The serialized form of an `IndexTable`: the header record (user names
followed by the reserved `seek` name) and one record per row, the `seek`
value rendered in decimal.  This is the record list `index.to_csv`
writes. -/
def toRaw (t : IndexTable) : RawTable :=
  ⟨t.names ++ [seekName], t.rows.map (fun r => r.1 ++ [toDecimal r.2])⟩

/-- The record list of the sidecar CSV payload. -/
def tableRecords (t : IndexTable) : List (List (List Char)) :=
  (toRaw t).header :: (toRaw t).data

/-- The CSV text of the sidecar payload, before compression. -/
def csvOfTable (t : IndexTable) : List Char := writeCSV (tableRecords t)

/-- The successive chunks `write_index` hands to `o_file.write`: first the
magic header, then the compressed payload. -/
def writeIndexChunks (c : Codec) (t : IndexTable) : List (List Char) :=
  [checkString, c.comp (csvOfTable t)]

/-- The complete byte content `write_index` leaves in the sidecar file. -/
def writeIndexBytes (c : Codec) (t : IndexTable) : List Char :=
  checkString ++ c.comp (csvOfTable t)

/-- The on-disk states a reader can observe if the process stops between
the `write` calls of `write_index`: the concatenation of the first `k`
chunks, for every `k`. -/
def midWriteStates (c : Codec) (t : IndexTable) : List (List Char) :=
  (List.range ((writeIndexChunks c t).length + 1)).map
    (fun k => ((writeIndexChunks c t).take k).flatten)

/-- Models `read_index`: check the 15-byte magic, decompress the rest,
parse it as CSV with a header row. -/
def readIndex (c : Codec) (fn : String) (bytes : List Char) : Except GwipError RawTable :=
  if bytes.take checkString.length ≠ checkString then
    Except.error (GwipError.programError (fn ++ ": not a valid index file"))
  else
    match c.decomp (bytes.drop checkString.length) with
    | none => Except.error GwipError.malformed
    | some txt =>
      match parseCSV txt with
      | [] => Except.error GwipError.emptyData
      | h :: rows => Except.ok ⟨h, rows⟩

/-- Models `generate_index` up to the point where the index is written:
assert the column/name lists match, parse the requested columns of every
line, compute the seek offsets, and pair row `i` with offset `i`, dropping
the final dangling offset.  Blank lines make the pandas row count diverge
from the line count, which the library reports as an error. -/
def generateIndexTable (sep : Char) (cols : List Nat) (names : List (List Char))
    (content : List Char) : Except GwipError IndexTable :=
  if cols.length ≠ names.length then Except.error GwipError.invalidArguments
  else
    let lines := splitLines content
    if lines = [] then Except.error GwipError.emptyData
    else if lines.any (fun l => stripNl l = []) then Except.error GwipError.malformed
    else
      match mapOption (fun l => projectRow cols (splitSep sep (stripNl l))) lines with
      | none => Except.error GwipError.malformed
      | some projected =>
        Except.ok ⟨names, projected.zip ((seekGenerator lines).dropLast)⟩

/-- Models `get_index_fn`: the sidecar path derived from the source path
(`os.path.abspath` is not modelled; paths are opaque). -/
def getIndexFn (fn : String) : String := fn ++ ".idx"

/-- Models `get_index`.  The file system is passed explicitly: `source` is
the indexed file's content and `sidecar` the current content of the sidecar
file (`none` when `has_index` is false).  Returns the resulting table or
error together with the sidecar content after the call. -/
def getIndex (c : Codec) (fn : String) (cols : List Nat) (names : List (List Char))
    (sep : Char) (source : List Char) (sidecar : Option (List Char)) :
    Except GwipError RawTable × Option (List Char) :=
  match sidecar with
  | none =>
    match generateIndexTable sep cols names source with
    | Except.error e => (Except.error e, none)
    | Except.ok t => (Except.ok (toRaw t), some (writeIndexBytes c t))
  | some bytes =>
    match readIndex c fn bytes with
    | Except.error e => (Except.error e, some bytes)
    | Except.ok fileIndex =>
      if ∀ n ∈ names, n ∈ fileIndex.header ∧ n ≠ seekName then
        if seekName ∈ fileIndex.header then (Except.ok fileIndex, some bytes)
        else (Except.error (GwipError.programError (fn ++ ": invalid index: reindex")), some bytes)
      else (Except.error (GwipError.programError (fn ++ ": missing index columns: reindex")), some bytes)

/-- The source file of the spec's concrete scenario: three space-separated
lines. -/
def scenarioContent : List Char := "1 A\n2 B\n3 C\n".data

/-- The index the scenario is expected to produce. -/
def scenarioTable : IndexTable :=
  ⟨["id".data], [(["1".data], 0), (["2".data], 4), (["3".data], 8)]⟩

/-- A small two-column index used to exercise the cache-hit path. -/
def sampleTable : IndexTable :=
  ⟨["a".data, "b".data], [(["x".data, "y".data], 0)]⟩

/-! ### CSV writer/parser round trip -/

theorem isSpecialChar_false_iff (c : Char) :
    isSpecialChar c = false ↔ c ≠ ',' ∧ c ≠ '"' ∧ c ≠ '\n' ∧ c ≠ '\r' := by
  simp [isSpecialChar]
  tauto

theorem csvRun_end_clean (rows : List (List (List Char))) :
    csvRun [] [] [] rows false false = rows.reverse := by
  simp [csvRun]

theorem csvRun_plain_char (c : Char) (h : isSpecialChar c = false)
    (rest fld : List Char) (row : List (List Char)) (rows : List (List (List Char))) :
    csvRun (c :: rest) fld row rows false false
      = csvRun rest (c :: fld) row rows false false := by
  obtain ⟨h1, h2, h3, _⟩ := (isSpecialChar_false_iff c).1 h
  simp [csvRun, h1, h2, h3]

theorem csvRun_inq_char (c : Char) (h : c ≠ '"')
    (rest fld : List Char) (row : List (List Char)) (rows : List (List (List Char))) :
    csvRun (c :: rest) fld row rows true false
      = csvRun rest (c :: fld) row rows true false := by
  simp [csvRun, h]

theorem csvRun_inq_close (rest fld : List Char) (row : List (List Char))
    (rows : List (List (List Char))) :
    csvRun ('"' :: rest) fld row rows true false = csvRun rest fld row rows false true := by
  simp [csvRun]

theorem csvRun_escaped_quote (rest fld : List Char) (row : List (List Char))
    (rows : List (List (List Char))) :
    csvRun ('"' :: rest) fld row rows false true
      = csvRun rest ('"' :: fld) row rows true false := by
  simp [csvRun]

theorem csvRun_comma (b : Bool) (rest fld : List Char) (row : List (List Char))
    (rows : List (List (List Char))) :
    csvRun (',' :: rest) fld row rows false b
      = csvRun rest [] (fld.reverse :: row) rows false false := by
  cases b <;> simp [csvRun]

theorem csvRun_newline (b : Bool) (rest fld : List Char) (row : List (List Char))
    (rows : List (List (List Char))) :
    csvRun ('\n' :: rest) fld row rows false b
      = if fld = [] ∧ row = [] ∧ b = false then csvRun rest [] [] rows false false
        else csvRun rest [] [] ((fld.reverse :: row).reverse :: rows) false false := by
  cases b <;> simp [csvRun]

theorem csvRun_open_quote (rest : List Char) (row : List (List Char))
    (rows : List (List (List Char))) :
    csvRun ('"' :: rest) [] row rows false false = csvRun rest [] row rows true false := by
  simp [csvRun]

theorem csvRun_copy_plain (f : List Char) (h : ∀ c ∈ f, isSpecialChar c = false) :
    ∀ (rest fld : List Char) (row : List (List Char)) (rows : List (List (List Char))),
      csvRun (f ++ rest) fld row rows false false
        = csvRun rest (f.reverse ++ fld) row rows false false := by
  induction f with
  | nil => intro rest fld row rows; simp
  | cons c t ih =>
    intro rest fld row rows
    have hc := h c (List.mem_cons_self c t)
    have ht : ∀ x ∈ t, isSpecialChar x = false := fun x hx => h x (List.mem_cons_of_mem c hx)
    rw [List.cons_append, csvRun_plain_char c hc, ih ht]
    simp [List.reverse_cons, List.append_assoc]

theorem csvRun_escape (f : List Char) :
    ∀ (rest fld : List Char) (row : List (List Char)) (rows : List (List (List Char))),
      csvRun (escapeQuotes f ++ '"' :: rest) fld row rows true false
        = csvRun rest (f.reverse ++ fld) row rows false true := by
  induction f with
  | nil => intro rest fld row rows; simp [escapeQuotes, csvRun_inq_close]
  | cons c t ih =>
    intro rest fld row rows
    by_cases hc : c = '"'
    · subst hc
      rw [show escapeQuotes ('"' :: t) = '"' :: '"' :: escapeQuotes t from by
            simp [escapeQuotes],
          List.cons_append, List.cons_append, csvRun_inq_close, csvRun_escaped_quote, ih]
      simp [List.reverse_cons, List.append_assoc]
    · rw [show escapeQuotes (c :: t) = c :: escapeQuotes t from by simp [escapeQuotes, hc],
          List.cons_append, csvRun_inq_char c hc, ih]
      simp [List.reverse_cons, List.append_assoc]

theorem csvRun_writeField (f : List Char) (rest : List Char) (row : List (List Char))
    (rows : List (List (List Char))) :
    csvRun (writeField f ++ rest) [] row rows false false
      = csvRun rest f.reverse row rows false (needsQuote f) := by
  by_cases h : needsQuote f = true
  · rw [writeField, if_pos h, h]
    have hshape : ('"' :: (escapeQuotes f ++ ['"'])) ++ rest
        = '"' :: (escapeQuotes f ++ '"' :: rest) := by
      simp [List.append_assoc]
    rw [hshape, csvRun_open_quote, csvRun_escape]
    simp
  · have h' : needsQuote f = false := by simpa using h
    rw [writeField, if_neg (by simp [h']), h']
    have hall : ∀ c ∈ f, isSpecialChar c = false := by
      intro c hc
      have := List.any_eq_false.1 h' c hc
      simpa using this
    rw [csvRun_copy_plain f hall]
    simp

theorem csvRun_record (fs : List (List Char)) :
    ∀ (rest : List Char) (row : List (List Char)) (rows : List (List (List Char))),
      fs ≠ [] →
      csvRun (writeRecord fs ++ '\n' :: rest) [] row rows false false
        = if fs = [[]] ∧ row = [] then csvRun rest [] [] rows false false
          else csvRun rest [] [] ((row.reverse ++ fs) :: rows) false false := by
  induction fs with
  | nil => intro _ _ _ h; exact absurd rfl h
  | cons f t ih =>
    intro rest row rows _
    cases t with
    | nil =>
      rw [show writeRecord [f] = writeField f from rfl, csvRun_writeField, csvRun_newline]
      by_cases hf : f = []
      · subst hf
        by_cases hr : row = []
        · subst hr; simp [needsQuote]
        · rw [if_neg (by simp [hr]), if_neg (by simp [hr])]
          simp
      · rw [if_neg (by simp [hf]), if_neg (by simp [hf])]
        simp
    | cons g u =>
      rw [show writeRecord (f :: g :: u) = writeField f ++ ',' :: writeRecord (g :: u) from rfl]
      have hshape : (writeField f ++ ',' :: writeRecord (g :: u)) ++ '\n' :: rest
          = writeField f ++ ',' :: (writeRecord (g :: u) ++ '\n' :: rest) := by
        simp [List.append_assoc]
      rw [hshape, csvRun_writeField, csvRun_comma,
          ih rest (f.reverse.reverse :: row) rows (by simp)]
      rw [if_neg (by simp)]
      simp [List.reverse_cons, List.append_assoc]

theorem csvRun_writeCSV (rs : List (List (List Char)))
    (h : ∀ r ∈ rs, r ≠ [] ∧ r ≠ [[]]) :
    ∀ rowsAcc : List (List (List Char)),
      csvRun (writeCSV rs) [] [] rowsAcc false false = rowsAcc.reverse ++ rs := by
  induction rs with
  | nil => intro rowsAcc; simp [writeCSV, csvRun_end_clean]
  | cons r rs ih =>
    intro rowsAcc
    obtain ⟨h1, h2⟩ := h r (List.mem_cons_self r rs)
    rw [show writeCSV (r :: rs) = writeRecord r ++ '\n' :: writeCSV rs from rfl,
        csvRun_record r _ _ _ h1, if_neg (by simp [h2])]
    simp only [List.reverse_nil, List.nil_append]
    rw [ih (fun x hx => h x (List.mem_cons_of_mem _ hx)) (r :: rowsAcc)]
    simp

theorem parseCSV_writeCSV (rs : List (List (List Char)))
    (h : ∀ r ∈ rs, r ≠ [] ∧ r ≠ [[]]) :
    parseCSV (writeCSV rs) = rs := by
  rw [parseCSV, csvRun_writeCSV rs h []]
  simp

/-! ### Decimal rendering of the seek column -/

theorem toDecAux_ne_nil (fuel n : Nat) (h : 0 < fuel) : toDecAux fuel n ≠ [] := by
  cases fuel with
  | zero => omega
  | succ f =>
    rw [toDecAux]
    split <;> simp

theorem toDecimal_ne_nil (n : Nat) : toDecimal n ≠ [] :=
  toDecAux_ne_nil _ _ (Nat.succ_pos n)

theorem digit_not_special : ∀ d, d < 10 → isSpecialChar (natDigit d) = false := by decide

theorem digit_toNat : ∀ d, d < 10 → (natDigit d).toNat = 48 + d := by decide

theorem mem_toDecAux (fuel : Nat) :
    ∀ n c, c ∈ toDecAux fuel n → ∃ d, d < 10 ∧ c = natDigit d := by
  induction fuel with
  | zero => intro n c h; simp [toDecAux] at h
  | succ f ih =>
    intro n c h
    rw [toDecAux] at h
    by_cases hn : n < 10
    · rw [if_pos hn] at h
      simp at h
      exact ⟨n, hn, h⟩
    · rw [if_neg hn] at h
      rcases List.mem_append.1 h with h | h
      · exact ih _ _ h
      · simp at h
        exact ⟨n % 10, Nat.mod_lt _ (by norm_num), h⟩

theorem needsQuote_toDecimal (n : Nat) : needsQuote (toDecimal n) = false := by
  rw [needsQuote, List.any_eq_false]
  intro c hc
  obtain ⟨d, hd, rfl⟩ := mem_toDecAux _ _ _ hc
  simp [digit_not_special d hd]

theorem parseDec_toDecAux : ∀ fuel n : Nat, n < fuel → parseDec (toDecAux fuel n) = n := by
  intro fuel
  induction fuel with
  | zero => intro n h; omega
  | succ f ih =>
    intro n h
    rw [toDecAux]
    by_cases hn : n < 10
    · rw [if_pos hn]
      simp [parseDec, digit_toNat n hn]
    · rw [if_neg hn]
      have hdiv : n / 10 < f := by
        have h1 : n / 10 < n := Nat.div_lt_self (by omega) (by norm_num)
        omega
      have hstep : parseDec (toDecAux f (n / 10) ++ [natDigit (n % 10)])
          = 10 * parseDec (toDecAux f (n / 10)) + ((natDigit (n % 10)).toNat - 48) := by
        simp [parseDec, List.foldl_append]
      rw [hstep, ih _ hdiv, digit_toNat (n % 10) (Nat.mod_lt _ (by norm_num))]
      omega

theorem parseDec_toDecimal (n : Nat) : parseDec (toDecimal n) = n :=
  parseDec_toDecAux (n + 1) n (Nat.lt_succ_self n)

/-! ### Sidecar serialization round trip -/

theorem append_singleton_records (l : List (List Char)) (x : List Char) (hx : x ≠ []) :
    l ++ [x] ≠ [] ∧ l ++ [x] ≠ [[]] := by
  constructor
  · simp
  · intro h
    have hl : l.length + 1 = 1 := by simpa using congrArg List.length h
    have hnil : l = [] := List.length_eq_zero.1 (by omega)
    subst hnil
    simp at h
    exact hx h

theorem seekName_ne_nil : seekName ≠ [] := by decide

theorem tableRecords_ok (t : IndexTable) : ∀ r ∈ tableRecords t, r ≠ [] ∧ r ≠ [[]] := by
  intro r hr
  rw [tableRecords] at hr
  rcases List.mem_cons.1 hr with rfl | hr
  · exact append_singleton_records t.names seekName seekName_ne_nil
  · obtain ⟨⟨fs, s⟩, _, rfl⟩ := List.mem_map.1 hr
    exact append_singleton_records fs (toDecimal s) (toDecimal_ne_nil s)

theorem idCodec_inverts : zlibInverts idCodec := fun _ => rfl

theorem readIndex_writeIndex (c : Codec) (hc : zlibInverts c) (fn : String) (t : IndexTable) :
    readIndex c fn (writeIndexBytes c t) = Except.ok (toRaw t) := by
  rw [readIndex, writeIndexBytes, List.take_left, List.drop_left,
      if_neg (show ¬checkString ≠ checkString from fun h => h rfl), hc (csvOfTable t)]
  have hparse : parseCSV (csvOfTable t) = tableRecords t :=
    parseCSV_writeCSV (tableRecords t) (tableRecords_ok t)
  rw [csvOfTable, tableRecords] at hparse
  simp only [csvOfTable, tableRecords, hparse]

/-! ### Offset scanner and index generation -/

theorem mapOption_length (f : α → Option β) :
    ∀ (l : List α) (l' : List β), mapOption f l = some l' → l'.length = l.length := by
  intro l
  induction l with
  | nil =>
    intro l' h
    rw [mapOption] at h
    cases h
    rfl
  | cons a tl ih =>
    intro l' h
    rw [mapOption] at h
    cases hfa : f a with
    | none => rw [hfa] at h; cases h
    | some b =>
      rw [hfa] at h
      cases hmt : mapOption f tl with
      | none => rw [hmt] at h; cases h
      | some bs =>
        rw [hmt] at h
        cases h
        simp [ih bs hmt]

theorem seekGeneratorFrom_length :
    ∀ (ls : List (List Char)) (p : Nat), (seekGeneratorFrom p ls).length = ls.length := by
  intro ls
  induction ls with
  | nil => intro p; rfl
  | cons l t ih => intro p; simp [seekGeneratorFrom, ih]

theorem seekGenerator_length (lines : List (List Char)) :
    (seekGenerator lines).length = lines.length + 1 := by
  simp [seekGenerator, seekGeneratorFrom_length]

theorem seekGeneratorFrom_getElem? :
    ∀ (ls : List (List Char)) (p i : Nat), i < ls.length →
      (seekGeneratorFrom p ls)[i]? = some (p + ((ls.take (i + 1)).map List.length).sum) := by
  intro ls
  induction ls with
  | nil => intro p i h; simp at h
  | cons l t ih =>
    intro p i h
    cases i with
    | zero => simp [seekGeneratorFrom]
    | succ j =>
      rw [seekGeneratorFrom]
      rw [List.getElem?_cons_succ, ih (p + l.length) j (by simpa using h)]
      simp [List.take_succ_cons, Nat.add_assoc]

theorem generate_ok_parts (sep : Char) (cols : List Nat) (names : List (List Char))
    (content : List Char) (t : IndexTable)
    (h : generateIndexTable sep cols names content = Except.ok t) :
    t.names = names ∧ ∃ projected,
      mapOption (fun l => projectRow cols (splitSep sep (stripNl l))) (splitLines content)
          = some projected ∧
      projected.length = (splitLines content).length ∧
      t.rows = projected.zip ((seekGenerator (splitLines content)).dropLast) := by
  rw [generateIndexTable] at h
  by_cases h1 : cols.length ≠ names.length
  · rw [if_pos h1] at h; cases h
  rw [if_neg h1] at h
  simp only [] at h
  by_cases h2 : splitLines content = []
  · rw [if_pos h2] at h; cases h
  rw [if_neg h2] at h
  by_cases h3 : (splitLines content).any (fun l => stripNl l = []) = true
  · rw [if_pos h3] at h; cases h
  rw [if_neg h3] at h
  cases hm : mapOption (fun l => projectRow cols (splitSep sep (stripNl l))) (splitLines content) with
  | none => rw [hm] at h; cases h
  | some projected =>
    rw [hm] at h
    cases h
    exact ⟨rfl, projected, rfl, mapOption_length _ _ _ hm, rfl⟩

/-! ### Claims -/

/-- Claim C1 (counterexample): on a cache hit `get_index` does not project the
loaded table to the requested columns.  With a sidecar built for columns
`a, b`, a request for column `a` alone returns a table that still contains
column `b`, which is neither requested nor the reserved `seek` column. -/
theorem getIndex_returns_extra_columns :
    (getIndex idCodec "f" [0] ["a".data] ' ' [] (some (writeIndexBytes idCodec sampleTable))).1
      = Except.ok (toRaw sampleTable) ∧
    "b".data ∈ (toRaw sampleTable).header ∧
    "b".data ∉ ["a".data] ∧
    "b".data ≠ seekName :=
  ⟨rfl, by decide, by decide, by decide⟩

/-- Claim C1 (amended): for every file whose sidecar exists and passes
validation, `get_index` returns the loaded table as-is, unprojected: it
contains the requested columns and `seek` but may also contain other
columns from the original build. -/
theorem getIndex_hit_returns_table_unprojected (c : Codec) (fn : String) (cols : List Nat)
    (names : List (List Char)) (sep : Char) (source : List Char) (bytes : List Char)
    (raw : RawTable) (hread : readIndex c fn bytes = Except.ok raw)
    (hnames : ∀ n ∈ names, n ∈ raw.header ∧ n ≠ seekName)
    (hseek : seekName ∈ raw.header) :
    (getIndex c fn cols names sep source (some bytes)).1 = Except.ok raw := by
  simp only [getIndex, hread]
  rw [if_pos hnames, if_pos hseek]

/-- Witness for the amended C1 theorem at a concrete sidecar. -/
theorem getIndex_hit_returns_table_unprojected_witness :
    (getIndex idCodec "g" [0] ["a".data] ' ' [] (some (writeIndexBytes idCodec sampleTable))).1
      = Except.ok (toRaw sampleTable) :=
  getIndex_hit_returns_table_unprojected idCodec "g" [0] ["a".data] ' ' []
    (writeIndexBytes idCodec sampleTable) (toRaw sampleTable) rfl (by decide) (by decide)

/-- Claim C2 (counterexample): `write_index` writes the magic header with one
`write` call and the payload with a second, in place.  The on-disk state
between the two calls is exactly the 15-byte magic: it passes the
magic-header check while its payload is a strict truncation of the intended
payload, so a failure between the writes leaves a half-written sidecar
observable by subsequent readers. -/
theorem write_midstate_passes_magic :
    checkString ∈ midWriteStates idCodec sampleTable ∧
    checkString.take 15 = checkString ∧
    checkString.drop 15 = [] ∧
    (writeIndexBytes idCodec sampleTable).drop 15 ≠ [] ∧
    checkString ≠ writeIndexBytes idCodec sampleTable :=
  ⟨by decide, rfl, rfl, by decide, by decide⟩

/-- Claim C2 (amended): if scanning fails partway no sidecar is written at
all (persistence only happens after a successful scan), but persistence
itself is not all-or-nothing: `write_index` writes the magic header first
and the payload second with no temporary file or rename, so the
intermediate state passes the 15-byte magic check with a truncated
payload. -/
theorem write_not_atomic (c : Codec) (t : IndexTable)
    (hp : c.comp (csvOfTable t) ≠ []) :
    (∀ fn cols names sep source e,
        generateIndexTable sep cols names source = Except.error e →
        getIndex c fn cols names sep source none = (Except.error e, none)) ∧
    writeIndexBytes c t = (writeIndexChunks c t).flatten ∧
    checkString ∈ midWriteStates c t ∧
    checkString.take checkString.length = checkString ∧
    checkString ≠ writeIndexBytes c t := by
  refine ⟨?_, ?_, ?_, List.take_length checkString, ?_⟩
  · intro fn cols names sep source e h
    simp only [getIndex, h]
  · simp [writeIndexBytes, writeIndexChunks]
  · rw [midWriteStates]
    apply List.mem_map.2
    refine ⟨1, by simp [writeIndexChunks], by simp [writeIndexChunks]⟩
  · intro h
    have hlen := congrArg List.length h
    rw [writeIndexBytes, List.length_append] at hlen
    have hz : (c.comp (csvOfTable t)).length = 0 := by omega
    exact hp (List.length_eq_zero.1 hz)

/-- Witness for the amended C2 theorem at a concrete table and codec. -/
theorem write_not_atomic_witness :
    checkString ∈ midWriteStates idCodec sampleTable :=
  (write_not_atomic idCodec sampleTable (by decide)).2.2.1

/-- Claim C3: the offset scanner yields exactly N+1 offsets for an N-line
file, the first offset is 0, offset i+1 is the reader's position right
after consuming line i (the cumulative byte length of lines 0..i), and the
build path pairs offset i with row i, discarding the final dangling
offset. -/
theorem seek_scanner_offsets (sep : Char) (cols : List Nat) (names : List (List Char))
    (content : List Char) (t : IndexTable)
    (hgen : generateIndexTable sep cols names content = Except.ok t) :
    (seekGenerator (splitLines content)).length = (splitLines content).length + 1 ∧
    (seekGenerator (splitLines content))[0]? = some 0 ∧
    (∀ i, i < (splitLines content).length →
      (seekGenerator (splitLines content))[i + 1]?
        = some ((((splitLines content).take (i + 1)).map List.length).sum)) ∧
    t.rows.length = (splitLines content).length ∧
    t.rows.map Prod.snd = (seekGenerator (splitLines content)).dropLast := by
  obtain ⟨-, projected, -, hlen, hrows⟩ := generate_ok_parts sep cols names content t hgen
  have hdrop : ((seekGenerator (splitLines content)).dropLast).length
      = (splitLines content).length := by
    rw [List.length_dropLast, seekGenerator_length]
    omega
  refine ⟨seekGenerator_length _,
    by rw [seekGenerator]; exact List.getElem?_cons_zero, ?_, ?_, ?_⟩
  · intro i hi
    rw [seekGenerator, List.getElem?_cons_succ, seekGeneratorFrom_getElem? _ 0 i hi]
    simp
  · rw [hrows, List.length_zip, hlen, hdrop]
    simp
  · rw [hrows]
    apply List.map_snd_zip
    rw [hdrop, hlen]

/-- Witness for C3 at the spec's concrete three-line scenario. -/
theorem seek_scanner_offsets_witness :
    scenarioTable.rows.map Prod.snd = (seekGenerator (splitLines scenarioContent)).dropLast :=
  (seek_scanner_offsets ' ' [0] ["id".data] scenarioContent scenarioTable rfl).2.2.2.2

/-- Claim C4: on the 3-line space-separated file `"1 A\n2 B\n3 C\n"`,
requesting column 0 named `id` builds the index with header
`["id", "seek"]` and rows `("1", 0), ("2", 4), ("3", 8)` in order. -/
theorem scenario_three_lines :
    generateIndexTable ' ' [0] ["id".data] scenarioContent = Except.ok scenarioTable ∧
    (toRaw scenarioTable).header = ["id".data, "seek".data] ∧
    scenarioTable.rows = [(["1".data], 0), (["2".data], 4), (["3".data], 8)] :=
  ⟨rfl, rfl, rfl⟩

/-- Claim C5: persisting any IndexTable with `write_index` and reading the
same path back with `read_index` reconstructs a table with identical column
order, identical seek values, and the same row count.  (Per the data model,
an IndexTable never has a user column named `seek`.) -/
theorem index_roundtrip (c : Codec) (hc : zlibInverts c) (fn : String) (t : IndexTable)
    (hseek : seekName ∉ t.names) :
    ∃ raw : RawTable,
      readIndex c fn (writeIndexBytes c t) = Except.ok raw ∧
      raw.header = t.names ++ [seekName] ∧
      raw.data.length = t.rows.length ∧
      raw.data.map (fun r => parseDec (r.getLast?.getD []))
        = t.rows.map (fun r => r.2) := by
  refine ⟨toRaw t, readIndex_writeIndex c hc fn t, rfl, by simp [toRaw], ?_⟩
  rw [toRaw]
  simp only [List.map_map]
  apply List.map_congr_left
  intro r _
  simp [List.getLast?_concat, parseDec_toDecimal]

/-- Witness for C5 at a concrete table and codec. -/
theorem index_roundtrip_witness :
    ∃ raw : RawTable,
      readIndex idCodec "data.txt" (writeIndexBytes idCodec sampleTable) = Except.ok raw ∧
      raw.header = sampleTable.names ++ [seekName] ∧
      raw.data.length = sampleTable.rows.length ∧
      raw.data.map (fun r => parseDec (r.getLast?.getD []))
        = sampleTable.rows.map (fun r => r.2) :=
  index_roundtrip idCodec idCodec_inverts "data.txt" sampleTable (by decide)

/-- Claim C6: requesting a name that is not among the sidecar's non-reserved
columns makes `get_index` fail with the missing-columns error naming the
file, and a loaded sidecar lacking the reserved `seek` column also fails
rather than being returned. -/
theorem stale_index_detection (c : Codec) (hc : zlibInverts c) (fn : String)
    (cols : List Nat) (names : List (List Char)) (sep : Char) (source : List Char)
    (t : IndexTable) (n : List Char)
    (hn : n ∈ names) (hnot : n ∉ t.names) :
    (getIndex c fn cols names sep source (some (writeIndexBytes c t))).1
        = Except.error (GwipError.programError (fn ++ ": missing index columns: reindex")) ∧
    ∀ bytes raw, readIndex c fn bytes = Except.ok raw → seekName ∉ raw.header →
      ∃ e, (getIndex c fn cols names sep source (some bytes)).1 = Except.error e := by
  constructor
  · have hcond : ¬ ∀ m ∈ names, m ∈ (toRaw t).header ∧ m ≠ seekName := by
      intro hall
      obtain ⟨hmem, hne⟩ := hall n hn
      rw [show (toRaw t).header = t.names ++ [seekName] from rfl] at hmem
      rcases List.mem_append.1 hmem with h | h
      · exact hnot h
      · simp at h
        exact hne h
    simp only [getIndex, readIndex_writeIndex c hc fn t]
    rw [if_neg hcond]
  · intro bytes raw hread hseek
    simp only [getIndex, hread]
    by_cases hall : ∀ m ∈ names, m ∈ raw.header ∧ m ≠ seekName
    · rw [if_pos hall, if_neg hseek]
      exact ⟨_, rfl⟩
    · rw [if_neg hall]
      exact ⟨_, rfl⟩

/-- Witness for C6: a sidecar built for columns `a, b` rejects a request
for column `c` with the missing-columns error. -/
theorem stale_index_detection_witness :
    (getIndex idCodec "f" [0] ["c".data] ' ' [] (some (writeIndexBytes idCodec sampleTable))).1
      = Except.error (GwipError.programError ("f" ++ ": missing index columns: reindex")) :=
  (stale_index_detection idCodec idCodec_inverts "f" [0] ["c".data] ' ' [] sampleTable
    "c".data (by decide) (by decide)).1

/-- Claim C7: a sidecar whose first 15 bytes differ from the magic string
makes `read_index` fail with the not-a-valid-index error naming the file,
whatever follows; the failure propagates unchanged through `get_index`,
which neither rebuilds nor touches the sidecar. -/
theorem bad_magic_rejected (c : Codec) (fn : String) (cols : List Nat)
    (names : List (List Char)) (sep : Char) (source : List Char) (bytes : List Char)
    (h : bytes.take 15 ≠ checkString) :
    readIndex c fn bytes
        = Except.error (GwipError.programError (fn ++ ": not a valid index file")) ∧
    (getIndex c fn cols names sep source (some bytes)).1
        = Except.error (GwipError.programError (fn ++ ": not a valid index file")) ∧
    (getIndex c fn cols names sep source (some bytes)).2 = some bytes := by
  have h' : bytes.take checkString.length ≠ checkString := h
  have hread : readIndex c fn bytes
      = Except.error (GwipError.programError (fn ++ ": not a valid index file")) := by
    rw [readIndex, if_pos h']
  exact ⟨hread, by simp only [getIndex, hread], by simp only [getIndex, hread]⟩

/-- Witness for C7 at a concrete junk sidecar. -/
theorem bad_magic_rejected_witness :
    readIndex idCodec "f" "JUNK".data
      = Except.error (GwipError.programError ("f" ++ ": not a valid index file")) :=
  (bad_magic_rejected idCodec "f" [] [] ' ' [] "JUNK".data (by decide)).1

/-- Claim C8: the codec resolver tags a file block-compressed exactly when
its first 3 bytes are `1F 8B 08` and plain otherwise; a file shorter than
3 bytes, a 3-byte file equal to the magic, and a 3-byte file with other
content each resolve to the correct tag, and short input never makes the
resolver throw. -/
theorem sniff_boundary (bytes : List Char) :
    (sniffBgzip bytes = true ↔ bytes.take 3 = gzipMagic) ∧
    (bytes.length < 3 → sniffBgzip bytes = false) ∧
    (bytes = gzipMagic → sniffBgzip bytes = true) ∧
    (bytes.length = 3 → bytes ≠ gzipMagic → sniffBgzip bytes = false) ∧
    (∀ fn hasBiopython seekable, bytes.length < 3 →
      getOpenFunc fn hasBiopython seekable bytes = Except.ok false) := by
  have hshort : bytes.length < 3 → sniffBgzip bytes = false := by
    intro h
    rw [sniffBgzip]
    apply decide_eq_false
    intro heq
    rw [List.take_of_length_le (by omega)] at heq
    have hlen := congrArg List.length heq
    simp [gzipMagic] at hlen
    omega
  refine ⟨by rw [sniffBgzip]; exact decide_eq_true_iff, hshort, ?_, ?_, ?_⟩
  · intro hb
    subst hb
    rfl
  · intro hlen hne
    rw [sniffBgzip]
    apply decide_eq_false
    rw [List.take_of_length_le (by omega)]
    exact hne
  · intro fn hb sk h
    rw [getOpenFunc, hshort h]
    simp

/-- Witness for C8 at a 1-byte file and at the exact magic. -/
theorem sniff_boundary_witness :
    sniffBgzip [Char.ofNat 31] = false ∧ sniffBgzip gzipMagic = true :=
  ⟨(sniff_boundary [Char.ofNat 31]).2.1 (by decide),
   (sniff_boundary gzipMagic).2.2.1 rfl⟩

/-- Claim C9: calling `get_index` twice in succession — the first call
building and persisting the sidecar, the second hitting it — returns on the
second call a table equal in content to the first call's result. -/
theorem getIndex_idempotent (c : Codec) (hc : zlibInverts c) (fn : String) (cols : List Nat)
    (names : List (List Char)) (sep : Char) (source : List Char) (t : IndexTable)
    (hgen : generateIndexTable sep cols names source = Except.ok t)
    (hseek : seekName ∉ names) :
    (getIndex c fn cols names sep source none).1 = Except.ok (toRaw t) ∧
    (getIndex c fn cols names sep source none).2 = some (writeIndexBytes c t) ∧
    (getIndex c fn cols names sep source (some (writeIndexBytes c t))).1
      = Except.ok (toRaw t) := by
  obtain ⟨hnames, -⟩ := generate_ok_parts sep cols names source t hgen
  have hcond : ∀ m ∈ names, m ∈ (toRaw t).header ∧ m ≠ seekName := by
    intro m hm
    refine ⟨?_, fun he => hseek (he ▸ hm)⟩
    have hmt : m ∈ t.names := by rw [hnames]; exact hm
    exact List.mem_append_left _ hmt
  have hseekmem : seekName ∈ (toRaw t).header := List.mem_append_right _ (by simp)
  refine ⟨by simp only [getIndex, hgen], by simp only [getIndex, hgen], ?_⟩
  simp only [getIndex, readIndex_writeIndex c hc fn t]
  rw [if_pos hcond, if_pos hseekmem]

/-- Witness for C9 at the spec's concrete scenario. -/
theorem getIndex_idempotent_witness :
    (getIndex idCodec "data.txt" [0] ["id".data] ' ' scenarioContent none).1
      = Except.ok (toRaw scenarioTable) :=
  (getIndex_idempotent idCodec idCodec_inverts "data.txt" [0] ["id".data] ' '
    scenarioContent scenarioTable rfl (by decide)).1

/-- Claim C10: on the cache-hit path `get_index` never consults `cols`,
`sep`, or the source file: two calls that differ only in those arguments
produce identical results and identical sidecar states. -/
theorem getIndex_hit_ignores_cols_sep (c : Codec) (fn : String) (cols cols₂ : List Nat)
    (names : List (List Char)) (sep sep₂ : Char) (source source₂ : List Char)
    (bytes : List Char) :
    getIndex c fn cols names sep source (some bytes)
      = getIndex c fn cols₂ names sep₂ source₂ (some bytes) := rfl

end Gwip
